import Mathlib

/-!
Verification of the Basket KPIs API (src/main.py) against its specification.

The service loads a table of orders once at startup (load_data), then serves
aggregation endpoints: /kpis, /categories/top, /orders/distribution, with an
HTTPException handler and a RequestValidationError handler.

Numbers are modelled as rationals; pandas/NumPy operations on the loaded
table (column sums, mean, median, value_counts, sort_values, head) are
embedded as executable Lean functions over lists.
-/

namespace BasketKpis

/-! ### Numeric helpers -/

/-- Round a rational to the nearest integer, ties to the even neighbour:
the rounding performed by Python's builtin round. -/
def roundHalfEven (q : ℚ) : ℤ :=
  if q - ⌊q⌋ < 1/2 then ⌊q⌋
  else if 1/2 < q - ⌊q⌋ then ⌊q⌋ + 1
  else if ⌊q⌋ % 2 = 0 then ⌊q⌋ else ⌊q⌋ + 1

/-- Python round(x, ndigits): round to ndigits decimal places, ties to even. -/
def pyRound (ndigits : ℕ) (x : ℚ) : ℚ :=
  (roundHalfEven (x * 10 ^ ndigits) : ℚ) / 10 ^ ndigits

/-- Python int(x) applied to a numeric value: truncation toward zero. -/
def intTrunc (q : ℚ) : ℤ := if q < 0 then ⌈q⌉ else ⌊q⌋

/-!
### pandas sorting

`Series.sort_values` sorts through `nargsort`.  For `ascending=False`,
`nargsort` reverses the values and their indices up front, argsorts the
reversed values ascending, and reverses the resulting indexer at the end, so
that a stable underlying sort yields a stable descending order (ties keep
their original order).  We model the underlying argsort as a stable
ascending sort; NumPy's default introsort degenerates to a stable insertion
sort on the small arrays relevant here.
-/

/-- Stable ascending sort by a key: the ascending `sort_values`. -/
def sortValuesAsc {α β : Type} [LinearOrder β] (key : α → β) (xs : List α) : List α :=
  List.insertionSort (fun a b => key a ≤ key b) xs

/-- `sort_values(ascending=False)`: reverse the input, sort it ascending
stably, and reverse the result — the `nargsort` double-reversal — so ties
keep their original relative order in the descending output. -/
def sortValuesDesc {α β : Type} [LinearOrder β] (key : α → β) (xs : List α) : List α :=
  (sortValuesAsc key xs.reverse).reverse

/-!
### pandas value_counts

`Series.value_counts()` tallies the values with a hash table that yields keys
in order of first encounter, then sorts the counts descending
(`sort=True, ascending=False` defaults).
-/

/-- The distinct values of a list, in order of first encounter. -/
def encounterKeys {K : Type} [DecidableEq K] : List K → List K
  | [] => []
  | k :: xs => k :: (encounterKeys xs).filter (fun x => ¬ x = k)

/-- The value/count table in first-encounter key order, before sorting. -/
def valueCountsRaw {K : Type} [DecidableEq K] (xs : List K) : List (K × ℕ) :=
  (encounterKeys xs).map (fun k => (k, xs.count k))

/-- `Series.value_counts()`: counts per distinct value, sorted by count
descending. -/
def value_counts {K : Type} [DecidableEq K] (xs : List K) : List (K × ℕ) :=
  sortValuesDesc (fun p => p.2) (valueCountsRaw xs)

/-! ### Table loader (load_data) -/

/-- The fixed metadata column names (meta_cols in load_data). -/
def meta_cols : List String :=
  ["order_id", "order_dow", "order_hour_of_day", "days_since_prior_order"]

/-- A parsed delimited table: header and row cells.  A cell is `none` when
the source value is missing/NaN, otherwise the numeric value.  (The opaque
order_id strings play no role in any claim, so cells are modelled uniformly
as optional numbers.) -/
structure RawTable where
  header : List String
  rows : List (List (Option ℚ))
deriving DecidableEq

/-- The cell-level effect of data[cats] = data[cats].fillna(0): in a category
column a missing value becomes 0, any other cell is untouched. -/
def fill_cell (cats : List String) (c : String) (cell : Option ℚ) : Option ℚ :=
  if cats.contains c then some (cell.getD 0) else cell

/-- load_data: identify the category columns (all columns not in meta_cols,
in original header order) and fill missing values of category columns
with 0. -/
def load_data (t : RawTable) : RawTable × List String :=
  let cats := t.header.filter (fun c => ¬ meta_cols.contains c)
  (⟨t.header, t.rows.map (fun r => List.zipWith (fill_cell cats) t.header r)⟩, cats)

/-! ### Loaded application state and the aggregation engine -/

/-- One order row of the loaded table: its order_dow (0 to 6), its
order_hour_of_day, and its item counts aligned with the category-column
list. -/
structure OrderRow where
  dow : Fin 7
  hour : ℕ
  items : List ℚ
deriving DecidableEq

/-- The process-wide state after startup: the loaded dataframe rows together
with the category_columns list. -/
structure AppState where
  rows : List OrderRow
  category_columns : List String
deriving DecidableEq

/-- df[category_columns].sum(axis=1): the per-order item counts. -/
def items_per_order (st : AppState) : List ℚ :=
  st.rows.map (fun r => r.items.sum)

/-- Series.mean(): sum divided by length. -/
def seriesMean (xs : List ℚ) : ℚ := xs.sum / xs.length

/-- Series.median(): the middle element of the sorted values, or the mean of
the two middle elements when the length is even. -/
def seriesMedian (xs : List ℚ) : ℚ :=
  let s := sortValuesAsc id xs
  let n := xs.length
  if n % 2 = 1 then s.getD (n / 2) 0
  else (s.getD (n / 2 - 1) 0 + s.getD (n / 2) 0) / 2

/-- The response record of /kpis. -/
structure Kpis where
  total_orders : ℕ
  total_items : ℤ
  avg_items_per_order : ℚ
  median_items_per_order : ℚ
deriving DecidableEq

/-- The body of get_kpis after the df-is-None guard. -/
def computeKpis (st : AppState) : Kpis :=
  let ipo := items_per_order st
  { total_orders := st.rows.length
    total_items := intTrunc ipo.sum
    avg_items_per_order := pyRound 2 (seriesMean ipo)
    median_items_per_order := pyRound 2 (seriesMedian ipo) }

/-- df[category_columns].sum(): one (name, total) pair per category column,
in column order. -/
def category_totals (st : AppState) : List (String × ℚ) :=
  st.category_columns.enum.map (fun p =>
    (p.2, (st.rows.map (fun r => r.items.getD p.1 0)).sum))

/-- category_totals.sort_values(ascending=False) in get_top_categories. -/
def ranked_categories (st : AppState) : List (String × ℚ) :=
  sortValuesDesc (fun p => p.2) (category_totals st)

/-- The body of get_top_categories on loaded data: rank, head(limit),
convert each total with int(). -/
def top_categories (st : AppState) (limit : ℕ) : List (String × ℤ) :=
  ((ranked_categories st).take limit).map (fun p => (p.1, intTrunc p.2))

/-- The fixed day_names mapping of get_order_distribution. -/
def day_names : Fin 7 → String
  | 0 => "Sunday"
  | 1 => "Monday"
  | 2 => "Tuesday"
  | 3 => "Wednesday"
  | 4 => "Thursday"
  | 5 => "Friday"
  | 6 => "Saturday"

/-- format_hour: 24-hour value to a 12-hour AM/PM string. -/
def format_hour (hour : ℕ) : String :=
  if hour = 0 then "12:00 AM"
  else if hour < 12 then toString hour ++ ":00 AM"
  else if hour = 12 then "12:00 PM"
  else toString (hour - 12) ++ ":00 PM"

/-- df['order_dow'].value_counts().sort_index(). -/
def dow_counts (st : AppState) : List (Fin 7 × ℕ) :=
  sortValuesAsc (fun p => p.1) (value_counts (st.rows.map (fun r => r.dow)))

/-- One entry of day_of_week_distribution. -/
structure DowEntry where
  day : String
  day_number : ℕ
  orders : ℕ
  percentage : ℚ
deriving DecidableEq

/-- The day_of_week_distribution list of get_order_distribution. -/
def dow_distribution (st : AppState) : List DowEntry :=
  (dow_counts st).map (fun p =>
    { day := day_names p.1
      day_number := p.1.val
      orders := p.2
      percentage := pyRound 1 ((p.2 : ℚ) / (st.rows.length : ℚ) * 100) })

/-- One entry of peak_hours. -/
structure HourEntry where
  hour : String
  hour_24 : ℕ
  orders : ℕ
deriving DecidableEq

/-- hour_counts of get_order_distribution:
value_counts().sort_values(ascending=False).head(10). -/
def hour_counts (st : AppState) : List (ℕ × ℕ) :=
  (sortValuesDesc (fun p => p.2) (value_counts (st.rows.map (fun r => r.hour)))).take 10

/-- The peak_hours list of get_order_distribution. -/
def peak_hours (st : AppState) : List HourEntry :=
  (hour_counts st).map (fun p => ⟨format_hour p.1, p.1, p.2⟩)

/-- The response record of /orders/distribution. -/
structure Distribution where
  total_orders : ℕ
  analysis_period : String
  day_of_week_distribution : List DowEntry
  top_hours : List HourEntry
deriving DecidableEq

/-- The body of get_order_distribution on loaded data. -/
def compute_distribution (st : AppState) : Distribution :=
  { total_orders := st.rows.length
    analysis_period := "All available data"
    day_of_week_distribution := dow_distribution st
    top_hours := peak_hours st }

/-! ### HTTP layer -/

/-- A JSON response body, restricted to the shapes this API produces. -/
inductive Body
  | err (status message : String)
  | kpis (k : Kpis)
  | top (limit : ℤ) (cats : List (String × ℤ))
  | dist (d : Distribution)
deriving DecidableEq

/-- An HTTP response: status code and JSON body. -/
structure Response where
  code : ℕ
  body : Body
deriving DecidableEq

/-- http_exception_handler: wrap an HTTPException(code, detail) into
a JSONResponse with body status "error" / message detail. -/
def http_exception_handler (code : ℕ) (detail : String) : Response :=
  ⟨code, Body.err "error" detail⟩

/-- The payload FastAPI attaches to a RequestValidationError: the failing
parameter and the underlying message (both ignored by the app's handler). -/
structure RequestValidationError where
  param : String
  detail : String
deriving DecidableEq

/-- validation_exception_handler: every validation error is answered by the
same fixed 400 body, independent of the error's content. -/
def validation_exception_handler (_exc : RequestValidationError) : Response :=
  ⟨400, Body.err "error" "Invalid query parameter: limit must be between 1 and 100"⟩

/-- Decimal-digit accumulator for query-parameter integer parsing. -/
def parseDigitsAux : List Char → ℕ → Option ℕ
  | [], acc => some acc
  | c :: cs, acc =>
    if c.isDigit then parseDigitsAux cs (acc * 10 + (c.toNat - 48)) else none

/-- Integer syntax accepted for the limit query parameter: an optional sign
followed by one or more decimal digits. -/
def parseQueryInt (s : String) : Option ℤ :=
  match s.toList with
  | [] => none
  | '-' :: cs =>
    match cs with
    | [] => none
    | _ => (parseDigitsAux cs 0).map (fun n => -(n : ℤ))
  | '+' :: cs =>
    match cs with
    | [] => none
    | _ => (parseDigitsAux cs 0).map (fun n => (n : ℤ))
  | cs => (parseDigitsAux cs 0).map (fun n => (n : ℤ))

/-- FastAPI parsing and validation of the limit query parameter of
/categories/top: Query(default=10, ge=1, le=100).  A missing parameter
defaults to 10; a non-integer or out-of-range value raises
RequestValidationError before the endpoint body runs. -/
def parseLimit (raw : Option String) : Except RequestValidationError ℤ :=
  match raw with
  | none => Except.ok 10
  | some s =>
    match parseQueryInt s with
    | none => Except.error ⟨"limit", "Input should be a valid integer"⟩
    | some n =>
      if 1 ≤ n ∧ n ≤ 100 then Except.ok n
      else Except.error ⟨"limit", "Input should be within the range 1 to 100"⟩

/-- GET /kpis, with df the process-wide optional table. -/
def get_kpis (df : Option AppState) : Response :=
  match df with
  | none => http_exception_handler 500 "Data not loaded"
  | some st => ⟨200, Body.kpis (computeKpis st)⟩

/-- GET /categories/top, given the raw limit query parameter. -/
def get_top_categories (df : Option AppState) (rawLimit : Option String) : Response :=
  match parseLimit rawLimit with
  | Except.error e => validation_exception_handler e
  | Except.ok limit =>
    match df with
    | none => http_exception_handler 500 "Data not loaded"
    | some st => ⟨200, Body.top limit (top_categories st limit.toNat)⟩

/-- GET /orders/distribution. -/
def get_order_distribution (df : Option AppState) : Response :=
  match df with
  | none => http_exception_handler 500 "Data not loaded"
  | some st => ⟨200, Body.dist (compute_distribution st)⟩

/-- s contains sub as a substring. -/
def containsSubstr (s sub : String) : Prop :=
  ∃ pre post, s = pre ++ sub ++ post

/-! ### Concrete tables -/

/-- The 3-order table of the spec's concrete scenario (the test fixture):
category columns fresh_fruits, yogurt, packaged_cheese. -/
def exampleState : AppState :=
  { rows := [⟨0, 10, [2, 1, 1]⟩, ⟨1, 14, [0, 3, 1]⟩, ⟨2, 10, [5, 0, 0]⟩]
    category_columns := ["fresh_fruits", "yogurt", "packaged_cheese"] }

/-- A one-order table with two tied category columns alpha and beta. -/
def tieState : AppState :=
  { rows := [⟨0, 0, [1, 1]⟩]
    category_columns := ["alpha", "beta"] }

/-- A one-row raw table with a missing fresh_fruits cell and a missing
days_since_prior_order cell. -/
def exampleRaw : RawTable :=
  { header := ["order_id", "order_dow", "order_hour_of_day",
               "days_since_prior_order", "fresh_fruits"]
    rows := [[some 1, some 0, some 10, none, none]] }

/-! ### Helper lemmas: rounding -/

theorem abs_roundHalfEven_sub_le (q : ℚ) : |(roundHalfEven q : ℚ) - q| ≤ 1/2 := by
  have h0 : (0 : ℚ) ≤ q - ⌊q⌋ := by
    have := Int.floor_le q
    linarith
  have h1 : q - ⌊q⌋ < 1 := by
    have := Int.lt_floor_add_one q
    linarith
  unfold roundHalfEven
  split_ifs with hlt hgt heven
  · rw [abs_sub_comm, abs_of_nonneg h0]
    linarith
  · push_cast
    rw [abs_of_nonneg (by linarith)]
    linarith
  · rw [abs_sub_comm, abs_of_nonneg h0]
    linarith
  · push_cast
    rw [abs_of_nonneg (by linarith)]
    linarith

theorem abs_pyRound_sub_le (n : ℕ) (x : ℚ) :
    |pyRound n x - x| ≤ 1 / (2 * 10 ^ n) := by
  have hpow : (0 : ℚ) < 10 ^ n := by positivity
  have h := abs_roundHalfEven_sub_le (x * 10 ^ n)
  have hx : pyRound n x - x = ((roundHalfEven (x * 10 ^ n) : ℚ) - x * 10 ^ n) / 10 ^ n := by
    unfold pyRound
    field_simp
    ring
  rw [hx, abs_div, abs_of_pos hpow, div_le_div_iff₀ hpow (by positivity)]
  calc |(roundHalfEven (x * 10 ^ n) : ℚ) - x * 10 ^ n| * (2 * 10 ^ n)
      ≤ (1/2) * (2 * 10 ^ n) := by
        apply mul_le_mul_of_nonneg_right h
        positivity
    _ = 1 * 10 ^ n := by ring

theorem intTrunc_mono {a b : ℚ} (h : a ≤ b) : intTrunc a ≤ intTrunc b := by
  unfold intTrunc
  by_cases ha : a < 0 <;> by_cases hb : b < 0 <;> simp [ha, hb]
  · exact Int.ceil_le_ceil h
  · have hbz : (0 : ℚ) ≤ b := le_of_not_lt hb
    have h1 : Int.ceil a ≤ Int.ceil (0 : ℚ) := Int.ceil_le_ceil (le_of_lt ha)
    have h2 : Int.floor (0 : ℚ) ≤ Int.floor b := Int.floor_le_floor hbz
    exact le_trans (by simpa using h1) (by simpa using h2)
  · exact absurd (lt_of_le_of_lt h hb) ha
  · exact Int.floor_le_floor h

/-! ### Helper lemmas: sorting -/

theorem sortValuesAsc_perm {α β : Type} [LinearOrder β] (key : α → β) (xs : List α) :
    List.Perm (sortValuesAsc key xs) xs :=
  List.perm_insertionSort _ xs

theorem sortValuesDesc_perm {α β : Type} [LinearOrder β] (key : α → β) (xs : List α) :
    List.Perm (sortValuesDesc key xs) xs :=
  (List.reverse_perm _).trans ((sortValuesAsc_perm key xs.reverse).trans (List.reverse_perm xs))

theorem length_sortValuesDesc {α β : Type} [LinearOrder β] (key : α → β) (xs : List α) :
    (sortValuesDesc key xs).length = xs.length :=
  (sortValuesDesc_perm key xs).length_eq

theorem sorted_sortValuesAsc {α β : Type} [LinearOrder β] (key : α → β) (xs : List α) :
    (sortValuesAsc key xs).Pairwise (fun a b => key a ≤ key b) := by
  haveI : IsTotal α (fun a b => key a ≤ key b) := ⟨fun a b => le_total (key a) (key b)⟩
  haveI : IsTrans α (fun a b => key a ≤ key b) := ⟨fun _ _ _ hab hbc => le_trans hab hbc⟩
  exact List.sorted_insertionSort _ xs

theorem sorted_sortValuesDesc {α β : Type} [LinearOrder β] (key : α → β) (xs : List α) :
    (sortValuesDesc key xs).Pairwise (fun a b => key b ≤ key a) := by
  unfold sortValuesDesc
  rw [List.pairwise_reverse]
  exact sorted_sortValuesAsc key xs.reverse

theorem filter_orderedInsert_of_key_eq {α β : Type} [LinearOrder β] [DecidableEq β]
    (key : α → β) (a : α) (l : List α) (c : β) (hc : key a = c) :
    (List.orderedInsert (fun x y => key x ≤ key y) a l).filter (fun x => key x = c) =
      a :: l.filter (fun x => key x = c) := by
  induction l with
  | nil => simp [hc]
  | cons b l ih =>
    by_cases hab : key a ≤ key b
    · simp only [List.orderedInsert]
      rw [if_pos hab]
      simp [List.filter_cons, hc]
    · have hbc : ¬ key b = c := fun hbe => hab (le_of_eq (hc.trans hbe.symm))
      simp only [List.orderedInsert]
      rw [if_neg hab]
      simp [List.filter_cons, hbc, ih]

theorem filter_orderedInsert_of_key_ne {α β : Type} [LinearOrder β] [DecidableEq β]
    (key : α → β) (a : α) (l : List α) (c : β) (hc : ¬ key a = c) :
    (List.orderedInsert (fun x y => key x ≤ key y) a l).filter (fun x => key x = c) =
      l.filter (fun x => key x = c) := by
  induction l with
  | nil => simp [hc]
  | cons b l ih =>
    by_cases hab : key a ≤ key b
    · simp only [List.orderedInsert]
      rw [if_pos hab]
      simp [List.filter_cons, hc]
    · simp only [List.orderedInsert]
      rw [if_neg hab]
      simp [List.filter_cons, ih]

/-- Stability of the ascending sort: within each tie class the original order
is preserved. -/
theorem filter_sortValuesAsc {α β : Type} [LinearOrder β] [DecidableEq β]
    (key : α → β) (c : β) (xs : List α) :
    (sortValuesAsc key xs).filter (fun x => key x = c) = xs.filter (fun x => key x = c) := by
  induction xs with
  | nil => rfl
  | cons a xs ih =>
    show (List.orderedInsert _ a (sortValuesAsc key xs)).filter _ = _
    by_cases hc : key a = c
    · rw [filter_orderedInsert_of_key_eq key a _ c hc, ih]
      simp [hc]
    · rw [filter_orderedInsert_of_key_ne key a _ c hc, ih]
      simp [hc]

/-- Stability of the descending sort: the double reversal around the stable
ascending sort keeps each tie class in its original order. -/
theorem filter_sortValuesDesc {α β : Type} [LinearOrder β] [DecidableEq β]
    (key : α → β) (c : β) (xs : List α) :
    (sortValuesDesc key xs).filter (fun x => key x = c) =
      xs.filter (fun x => key x = c) := by
  unfold sortValuesDesc
  rw [List.filter_reverse, filter_sortValuesAsc, List.filter_reverse, List.reverse_reverse]

/-! ### Helper lemmas: value_counts -/

theorem encounterKeys_nodup {K : Type} [DecidableEq K] (xs : List K) :
    (encounterKeys xs).Nodup := by
  induction xs with
  | nil => exact List.nodup_nil
  | cons k xs ih =>
    refine List.nodup_cons.mpr ⟨fun hmem => ?_, List.Nodup.filter _ ih⟩
    have := List.of_mem_filter hmem
    simp at this

theorem mem_encounterKeys {K : Type} [DecidableEq K] (xs : List K) (a : K) :
    a ∈ encounterKeys xs ↔ a ∈ xs := by
  induction xs with
  | nil => simp [encounterKeys]
  | cons k xs ih =>
    simp only [encounterKeys, List.mem_cons, List.mem_filter]
    constructor
    · rintro (h | ⟨h, _⟩)
      · exact Or.inl h
      · exact Or.inr (ih.mp h)
    · rintro (h | h)
      · exact Or.inl h
      · by_cases hk : a = k
        · exact Or.inl hk
        · exact Or.inr ⟨ih.mpr h, by simp [hk]⟩

theorem encounterKeys_toFinset {K : Type} [DecidableEq K] (xs : List K) :
    (encounterKeys xs).toFinset = xs.toFinset := by
  ext a
  simp [List.mem_toFinset, mem_encounterKeys]

theorem length_encounterKeys_eq_card {K : Type} [DecidableEq K] (xs : List K) :
    (encounterKeys xs).length = xs.toFinset.card := by
  rw [← encounterKeys_toFinset, List.toFinset_card_of_nodup (encounterKeys_nodup xs)]

theorem valueCountsRaw_sum {K : Type} [DecidableEq K] (xs : List K) :
    ((valueCountsRaw xs).map (fun p => p.2)).sum = xs.length := by
  unfold valueCountsRaw
  rw [List.map_map]
  have h1 : ((encounterKeys xs).map ((fun p : K × ℕ => p.2) ∘ fun k => (k, xs.count k))).sum =
      ∑ a in (encounterKeys xs).toFinset, xs.count a :=
    (List.sum_toFinset _ (encounterKeys_nodup xs)).symm
  rw [h1, encounterKeys_toFinset, List.sum_toFinset_count_eq_length]

theorem mem_valueCountsRaw {K : Type} [DecidableEq K] (xs : List K) (p : K × ℕ) :
    p ∈ valueCountsRaw xs ↔ p.1 ∈ xs ∧ p.2 = xs.count p.1 := by
  unfold valueCountsRaw
  rw [List.mem_map]
  constructor
  · rintro ⟨k, hk, rfl⟩
    exact ⟨(mem_encounterKeys xs k).mp hk, rfl⟩
  · rintro ⟨h1, h2⟩
    exact ⟨p.1, (mem_encounterKeys xs p.1).mpr h1, by rw [← h2]⟩

theorem length_valueCountsRaw {K : Type} [DecidableEq K] (xs : List K) :
    (valueCountsRaw xs).length = xs.toFinset.card := by
  unfold valueCountsRaw
  rw [List.length_map, length_encounterKeys_eq_card]

/-! ### Claim theorems -/

/-- C6: for every hour value h in 0..23 the peak-hour string is the 12-hour
clock rendering: 0 gives "12:00 AM", 1..11 give "h:00 AM", 12 gives
"12:00 PM", 13..23 give "(h-12):00 PM". -/
theorem format_hour_spec (h : Fin 24) :
    (h.val = 0 → format_hour h.val = "12:00 AM") ∧
    (1 ≤ h.val ∧ h.val ≤ 11 → format_hour h.val = toString h.val ++ ":00 AM") ∧
    (h.val = 12 → format_hour h.val = "12:00 PM") ∧
    (13 ≤ h.val → format_hour h.val = toString (h.val - 12) ++ ":00 PM") := by
  revert h
  decide

/-- Witness for C6 at hours 0, 5, 12 and 17. -/
theorem format_hour_spec_witness :
    format_hour 0 = "12:00 AM" ∧ format_hour 5 = "5:00 AM" ∧
    format_hour 12 = "12:00 PM" ∧ format_hour 17 = "5:00 PM" :=
  ⟨(format_hour_spec 0).1 rfl,
   by simpa using (format_hour_spec 5).2.1 (by decide),
   (format_hour_spec 12).2.2.1 rfl,
   by simpa using (format_hour_spec 17).2.2.2 (by decide)⟩

/-- C10: the single global validation handler ignores which parameter failed
and always answers 400 with the fixed limit-specific body. -/
theorem validation_handler_fixed_message (exc : RequestValidationError) :
    validation_exception_handler exc =
      ⟨400, Body.err "error" "Invalid query parameter: limit must be between 1 and 100"⟩ :=
  rfl

/-- C7: with the table not loaded (df is None), each aggregation endpoint
answers 500 with body status "error" / message "Data not loaded"; for
/categories/top this holds whenever its limit parameter passes validation. -/
theorem endpoints_data_not_loaded :
    get_kpis none = ⟨500, Body.err "error" "Data not loaded"⟩ ∧
    get_order_distribution none = ⟨500, Body.err "error" "Data not loaded"⟩ ∧
    ∀ raw n, parseLimit raw = Except.ok n →
      get_top_categories none raw = ⟨500, Body.err "error" "Data not loaded"⟩ := by
  refine ⟨rfl, rfl, fun raw n h => ?_⟩
  simp [get_top_categories, h, http_exception_handler]

/-- Witness for C7: /categories/top with a valid limit and no data. -/
theorem endpoints_data_not_loaded_witness :
    get_top_categories none (some "10") = ⟨500, Body.err "error" "Data not loaded"⟩ :=
  endpoints_data_not_loaded.2.2 (some "10") 10 (by rfl)

/-- C3: a limit query parameter that is not an integer, or an integer outside
1..100, is answered 400 (never 500) with the fixed body, whose message
contains "limit must be between 1 and 100". -/
theorem get_top_categories_invalid_limit (df : Option AppState) (s : String)
    (h : parseQueryInt s = none ∨ ∀ n : ℤ, parseQueryInt s = some n → (n < 1 ∨ 100 < n)) :
    get_top_categories df (some s) =
      ⟨400, Body.err "error" "Invalid query parameter: limit must be between 1 and 100"⟩ ∧
    containsSubstr "Invalid query parameter: limit must be between 1 and 100"
      "limit must be between 1 and 100" := by
  have herr : ∃ e, parseLimit (some s) = Except.error e := by
    rcases h with h | h
    · exact ⟨⟨"limit", "Input should be a valid integer"⟩, by simp [parseLimit, h]⟩
    · cases hpq : parseQueryInt s with
      | none => exact ⟨⟨"limit", "Input should be a valid integer"⟩, by simp [parseLimit, hpq]⟩
      | some n =>
        have hno : ¬ (1 ≤ n ∧ n ≤ 100) := by
          rcases h n hpq with h1 | h1
          · exact fun hc => absurd hc.1 (not_le.mpr h1)
          · exact fun hc => absurd hc.2 (not_le.mpr h1)
        exact ⟨⟨"limit", "Input should be within the range 1 to 100"⟩,
          by simp [parseLimit, hpq, hno]⟩
  obtain ⟨e, he⟩ := herr
  constructor
  · simp [get_top_categories, he, validation_exception_handler]
  · exact ⟨"Invalid query parameter: ", "", rfl⟩

/-- Witness for C3 at limit=abc, limit=0 and limit=101. -/
theorem get_top_categories_invalid_limit_witness :
    get_top_categories (some exampleState) (some "abc") =
      ⟨400, Body.err "error" "Invalid query parameter: limit must be between 1 and 100"⟩ ∧
    get_top_categories (some exampleState) (some "0") =
      ⟨400, Body.err "error" "Invalid query parameter: limit must be between 1 and 100"⟩ ∧
    get_top_categories (some exampleState) (some "101") =
      ⟨400, Body.err "error" "Invalid query parameter: limit must be between 1 and 100"⟩ :=
  ⟨(get_top_categories_invalid_limit (some exampleState) "abc" (Or.inl (by decide))).1,
   (get_top_categories_invalid_limit (some exampleState) "0" (Or.inr (fun n hn => by
      have h0 : parseQueryInt "0" = some 0 := by decide
      rw [h0] at hn
      injection hn with h2
      omega))).1,
   (get_top_categories_invalid_limit (some exampleState) "101" (Or.inr (fun n hn => by
      have h0 : parseQueryInt "101" = some 101 := by decide
      rw [h0] at hn
      injection hn with h2
      omega))).1⟩

/-- C1: get_kpis returns the row count, the truncated sum of the per-row
category sums, the mean of the per-row sums rounded to 2 decimal places and
the median of the per-row sums rounded to 2 decimal places; on the 3-order
example table this is total_orders=3, total_items=13,
avg_items_per_order=4.33, median_items_per_order=4.0. -/
theorem get_kpis_spec (st : AppState) (hne : st.rows ≠ []) :
    get_kpis (some st) = ⟨200, Body.kpis (computeKpis st)⟩ ∧
    (computeKpis st).total_orders = st.rows.length ∧
    (computeKpis st).total_items = intTrunc ((st.rows.map (fun r => r.items.sum)).sum) ∧
    (computeKpis st).avg_items_per_order =
      pyRound 2 ((st.rows.map (fun r => r.items.sum)).sum / (st.rows.length : ℚ)) ∧
    (computeKpis st).median_items_per_order =
      pyRound 2 (seriesMedian (st.rows.map (fun r => r.items.sum))) ∧
    computeKpis exampleState = ⟨3, 13, 433/100, 4⟩ := by
  refine ⟨rfl, rfl, rfl, ?_, rfl, by with_unfolding_all decide⟩
  simp [computeKpis, seriesMean, items_per_order]

/-- Witness for C1 on the example table. -/
theorem get_kpis_spec_witness :
    computeKpis exampleState = ⟨3, 13, 433/100, 4⟩ :=
  (get_kpis_spec exampleState (by simp [exampleState])).2.2.2.2.2

/-! ### Further helper lemmas -/

theorem map_fst_valueCountsRaw {K : Type} [DecidableEq K] (xs : List K) :
    (valueCountsRaw xs).map (fun p => p.1) = encounterKeys xs := by
  unfold valueCountsRaw
  rw [List.map_map]
  have hf : ((fun p : K × ℕ => p.1) ∘ fun k => (k, xs.count k)) = fun k => k := rfl
  rw [hf]
  exact List.map_id _

theorem list_sum_map_sub {α : Type} (l : List α) (f g : α → ℚ) :
    (l.map f).sum - (l.map g).sum = (l.map (fun x => f x - g x)).sum := by
  induction l with
  | nil => simp
  | cons a l ih =>
    simp only [List.map_cons, List.sum_cons, ← ih]
    ring

theorem list_sum_abs_le_bound (l : List ℚ) (b : ℚ) (hb : ∀ x ∈ l, |x| ≤ b) :
    |l.sum| ≤ (l.length : ℚ) * b := by
  induction l with
  | nil => simp
  | cons a l ih =>
    have ha := hb a (List.mem_cons_self a l)
    have hl : ∀ x ∈ l, |x| ≤ b := fun x hx => hb x (List.mem_cons_of_mem a hx)
    calc |(a :: l).sum| = |a + l.sum| := by simp
      _ ≤ |a| + |l.sum| := abs_add _ _
      _ ≤ b + (l.length : ℚ) * b := add_le_add ha (ih hl)
      _ = ((a :: l).length : ℚ) * b := by
          simp only [List.length_cons]
          push_cast
          ring

theorem list_sum_map_div_mul {K : Type} (l : List (K × ℕ)) (T : ℚ) :
    (l.map (fun p => (p.2 : ℚ) / T * 100)).sum =
      (((l.map (fun p : K × ℕ => p.2)).sum : ℕ) : ℚ) / T * 100 := by
  induction l with
  | nil => simp
  | cons a l ih =>
    simp only [List.map_cons, List.sum_cons, ih]
    push_cast
    ring

theorem zipWith_fill_getElem (cats : List String) (hd : List String)
    (r : List (Option ℚ)) (j : ℕ) (c : String) (hc : hd[j]? = some c)
    (hlen : r.length = hd.length) :
    (List.zipWith (fill_cell cats) hd r)[j]? =
      some (fill_cell cats c (r.getD j none)) := by
  induction hd generalizing r j with
  | nil => simp at hc
  | cons c0 hd ih =>
    cases r with
    | nil => simp at hlen
    | cons r0 r =>
      cases j with
      | zero =>
        simp only [List.getElem?_cons_zero, Option.some.injEq] at hc
        subst hc
        simp [List.zipWith_cons_cons, List.getD_cons_zero]
      | succ j =>
        simp only [List.getElem?_cons_succ] at hc
        have hlen2 : r.length = hd.length := by simpa using hlen
        simpa [List.zipWith_cons_cons, List.getD_cons_succ] using ih r j hc hlen2

/-! ### Claim theorems, continued -/

/-- C2: for a valid limit, get_top_categories returns
min(limit, number of category columns) pairs of (name, integer total),
sorted by total descending, and within each class of tied totals the
ranking keeps the original column order (the first-encountered column
wins), the descending sort being stable. -/
theorem top_categories_spec (st : AppState) (limit : ℕ)
    (h1 : 1 ≤ limit) (h2 : limit ≤ 100) :
    top_categories st limit =
      ((ranked_categories st).take limit).map (fun p => (p.1, intTrunc p.2)) ∧
    (top_categories st limit).length = min limit st.category_columns.length ∧
    (top_categories st limit).Pairwise (fun a b => b.2 ≤ a.2) ∧
    (∀ c : ℚ, (ranked_categories st).filter (fun p => p.2 = c) =
      (category_totals st).filter (fun p => p.2 = c)) := by
  refine ⟨rfl, ?_, ?_, ?_⟩
  · simp [top_categories, ranked_categories, List.length_take, length_sortValuesDesc,
      category_totals, List.enum_length]
  · have hp : (ranked_categories st).Pairwise (fun a b => b.2 ≤ a.2) :=
      sorted_sortValuesDesc (fun p : String × ℚ => p.2) (category_totals st)
    have hp2 : ((ranked_categories st).take limit).Pairwise (fun a b => b.2 ≤ a.2) :=
      List.Pairwise.sublist (List.take_sublist limit _) hp
    exact List.Pairwise.map _ (fun a b hab => intTrunc_mono hab) hp2
  · intro c
    exact filter_sortValuesDesc (fun p : String × ℚ => p.2) c (category_totals st)

/-- Witness for C2: the example table with limit 2, plus a concrete tied
table on which the first-encountered column alpha does win the tie. -/
theorem top_categories_spec_witness :
    (top_categories exampleState 2).length = min 2 exampleState.category_columns.length ∧
    top_categories exampleState 10 =
      [("fresh_fruits", 7), ("yogurt", 4), ("packaged_cheese", 2)] ∧
    category_totals tieState = [("alpha", 1), ("beta", 1)] ∧
    top_categories tieState 10 = [("alpha", 1), ("beta", 1)] :=
  ⟨(top_categories_spec exampleState 2 (by decide) (by decide)).2.1,
   by with_unfolding_all decide,
   by with_unfolding_all decide,
   by with_unfolding_all decide⟩

/-- C4: peak_hours is the first 10 entries of the descending hour-count
ranking: min(10, number of distinct hours) entries, sorted by descending
count, and within tied counts the ranking preserves the first-encounter
order of the hour values (both the value_counts sort and the explicit
sort_values(ascending=False) are stable). -/
theorem peak_hours_spec (st : AppState) :
    peak_hours st = ((sortValuesDesc (fun p : ℕ × ℕ => p.2)
        (value_counts (st.rows.map (fun r => r.hour)))).take 10).map
        (fun p => ⟨format_hour p.1, p.1, p.2⟩) ∧
    (peak_hours st).length = min 10 (st.rows.map (fun r => r.hour)).toFinset.card ∧
    (peak_hours st).Pairwise (fun a b => b.orders ≤ a.orders) ∧
    (∀ c : ℕ, (sortValuesDesc (fun p : ℕ × ℕ => p.2)
        (value_counts (st.rows.map (fun r => r.hour)))).filter (fun p => p.2 = c) =
      (valueCountsRaw (st.rows.map (fun r => r.hour))).filter (fun p => p.2 = c)) := by
  refine ⟨rfl, ?_, ?_, ?_⟩
  · simp [peak_hours, hour_counts, List.length_take, length_sortValuesDesc,
      value_counts, length_valueCountsRaw]
  · have hp : (sortValuesDesc (fun p : ℕ × ℕ => p.2)
        (value_counts (st.rows.map (fun r => r.hour)))).Pairwise (fun a b => b.2 ≤ a.2) :=
      sorted_sortValuesDesc _ _
    have hp2 := List.Pairwise.sublist (List.take_sublist 10 _) hp
    exact List.Pairwise.map _ (fun a b hab => hab) hp2
  · intro c
    rw [filter_sortValuesDesc, value_counts, filter_sortValuesDesc]

/-- C5: day_of_week_distribution has one entry per distinct order_dow value,
in ascending day order, named by the fixed mapping, with the count and the
percentage count/total*100 rounded to 1 decimal place; on the example table
it is Sunday, Monday, Tuesday with 1 order and 33.3 percent each. -/
theorem dow_distribution_spec (st : AppState) :
    (dow_distribution st).length = (st.rows.map (fun r => r.dow)).toFinset.card ∧
    (dow_distribution st).Pairwise (fun a b => a.day_number < b.day_number) ∧
    (∀ e ∈ dow_distribution st, ∃ d : Fin 7, d ∈ st.rows.map (fun r => r.dow) ∧
      e = ⟨day_names d, d.val, (st.rows.map (fun r => r.dow)).count d,
        pyRound 1 (((st.rows.map (fun r => r.dow)).count d : ℚ) /
          (st.rows.length : ℚ) * 100)⟩) ∧
    (∀ d : Fin 7, d ∈ st.rows.map (fun r => r.dow) →
      ∃ e ∈ dow_distribution st, e.day_number = d.val) ∧
    dow_distribution exampleState =
      [⟨"Sunday", 0, 1, 333/10⟩, ⟨"Monday", 1, 1, 333/10⟩,
       ⟨"Tuesday", 2, 1, 333/10⟩] := by
  have hperm : List.Perm (dow_counts st) (valueCountsRaw (st.rows.map (fun r => r.dow))) :=
    (sortValuesAsc_perm _ _).trans (sortValuesDesc_perm _ _)
  refine ⟨?_, ?_, ?_, ?_, by with_unfolding_all decide⟩
  · unfold dow_distribution
    rw [List.length_map, hperm.length_eq, length_valueCountsRaw]
  · have hle : (dow_counts st).Pairwise (fun a b => a.1 ≤ b.1) :=
      sorted_sortValuesAsc (fun p : Fin 7 × ℕ => p.1) _
    have hnd : ((dow_counts st).map (fun p => p.1)).Nodup := by
      have h1 : ((valueCountsRaw (st.rows.map (fun r => r.dow))).map
          (fun p => p.1)).Nodup := by
        rw [map_fst_valueCountsRaw]
        exact encounterKeys_nodup _
      exact h1.perm (hperm.map _).symm
    have hne : (dow_counts st).Pairwise (fun a b => a.1 ≠ b.1) :=
      List.pairwise_map.mp hnd
    have hlt : (dow_counts st).Pairwise (fun a b => a.1 < b.1) :=
      (hle.and hne).imp (fun h => lt_of_le_of_ne h.1 h.2)
    unfold dow_distribution
    exact List.Pairwise.map _ (fun a b hab => hab) hlt
  · intro e he
    unfold dow_distribution at he
    obtain ⟨p, hp, rfl⟩ := List.mem_map.mp he
    obtain ⟨hmem, hcount⟩ := (mem_valueCountsRaw _ p).mp (hperm.mem_iff.mp hp)
    exact ⟨p.1, hmem, by rw [hcount]⟩
  · intro d hd
    have hpraw : (d, (st.rows.map (fun r => r.dow)).count d) ∈
        valueCountsRaw (st.rows.map (fun r => r.dow)) :=
      (mem_valueCountsRaw _ _).mpr ⟨hd, rfl⟩
    have hpc := hperm.mem_iff.mpr hpraw
    exact ⟨_, List.mem_map_of_mem _ hpc, rfl⟩

/-- Witness for C5 on the example table: day 0 is present and yields an
entry, and the full distribution matches the spec scenario. -/
theorem dow_distribution_spec_witness :
    (∃ e ∈ dow_distribution exampleState, e.day_number = (0 : Fin 7).val) ∧
    dow_distribution exampleState =
      [⟨"Sunday", 0, 1, 333/10⟩, ⟨"Monday", 1, 1, 333/10⟩,
       ⟨"Tuesday", 2, 1, 333/10⟩] :=
  ⟨(dow_distribution_spec exampleState).2.2.2.1 0 (by with_unfolding_all decide),
   (dow_distribution_spec exampleState).2.2.2.2⟩

/-- C9: for a non-empty table the day percentages sum to 100 within the
claimed tolerance of 0.1 per entry over at most 7 entries. -/
theorem dow_percentages_sum_spec (st : AppState) (h : st.rows ≠ []) :
    |((dow_distribution st).map (fun e => e.percentage)).sum - 100| ≤ 7/10 := by
  have hperm : List.Perm (dow_counts st) (valueCountsRaw (st.rows.map (fun r => r.dow))) :=
    (sortValuesAsc_perm _ _).trans (sortValuesDesc_perm _ _)
  have hlen0 : st.rows.length ≠ 0 := fun hz => h (List.length_eq_zero.mp hz)
  have hTne : ((st.rows.length : ℚ)) ≠ 0 := by exact_mod_cast hlen0
  have hmap : ((dow_distribution st).map (fun e => e.percentage)).sum =
      ((valueCountsRaw (st.rows.map (fun r => r.dow))).map
        (fun p => pyRound 1 ((p.2 : ℚ) / (st.rows.length : ℚ) * 100))).sum := by
    unfold dow_distribution
    rw [List.map_map]
    exact (hperm.map (fun p : Fin 7 × ℕ =>
      pyRound 1 ((p.2 : ℚ) / (st.rows.length : ℚ) * 100))).sum_eq
  have hexact : ((valueCountsRaw (st.rows.map (fun r => r.dow))).map
      (fun p => (p.2 : ℚ) / (st.rows.length : ℚ) * 100)).sum = 100 := by
    rw [list_sum_map_div_mul, valueCountsRaw_sum, List.length_map, div_self hTne]
    norm_num
  have hbound : |((valueCountsRaw (st.rows.map (fun r => r.dow))).map
        (fun p => pyRound 1 ((p.2 : ℚ) / (st.rows.length : ℚ) * 100))).sum -
      ((valueCountsRaw (st.rows.map (fun r => r.dow))).map
        (fun p => (p.2 : ℚ) / (st.rows.length : ℚ) * 100)).sum| ≤
      ((valueCountsRaw (st.rows.map (fun r => r.dow))).length : ℚ) * (1/20) := by
    rw [list_sum_map_sub]
    have hlen : ((valueCountsRaw (st.rows.map (fun r => r.dow))).map
        (fun p => pyRound 1 ((p.2 : ℚ) / (st.rows.length : ℚ) * 100) -
          (p.2 : ℚ) / (st.rows.length : ℚ) * 100)).length =
        (valueCountsRaw (st.rows.map (fun r => r.dow))).length :=
      List.length_map _ _
    rw [← hlen]
    apply list_sum_abs_le_bound
    intro x hx
    obtain ⟨p, hp, rfl⟩ := List.mem_map.mp hx
    calc |pyRound 1 ((p.2 : ℚ) / (st.rows.length : ℚ) * 100) -
          (p.2 : ℚ) / (st.rows.length : ℚ) * 100|
        ≤ 1 / (2 * 10 ^ 1) := abs_pyRound_sub_le 1 _
      _ = 1/20 := by norm_num
  have hk : ((valueCountsRaw (st.rows.map (fun r => r.dow))).length : ℚ) ≤ 7 := by
    have h7 : (valueCountsRaw (st.rows.map (fun r => r.dow))).length ≤ 7 := by
      rw [length_valueCountsRaw]
      calc (st.rows.map (fun r => r.dow)).toFinset.card
          ≤ Fintype.card (Fin 7) := Finset.card_le_univ _
        _ = 7 := Fintype.card_fin 7
    exact_mod_cast h7
  calc |((dow_distribution st).map (fun e => e.percentage)).sum - 100|
      = |((valueCountsRaw (st.rows.map (fun r => r.dow))).map
          (fun p => pyRound 1 ((p.2 : ℚ) / (st.rows.length : ℚ) * 100))).sum -
        ((valueCountsRaw (st.rows.map (fun r => r.dow))).map
          (fun p => (p.2 : ℚ) / (st.rows.length : ℚ) * 100)).sum| := by
        rw [hmap, hexact]
    _ ≤ ((valueCountsRaw (st.rows.map (fun r => r.dow))).length : ℚ) * (1/20) := hbound
    _ ≤ 7 * (1/20) := mul_le_mul_of_nonneg_right hk (by norm_num)
    _ ≤ 7/10 := by norm_num

/-- Witness for C9 on the example table. -/
theorem dow_percentages_sum_spec_witness :
    |((dow_distribution exampleState).map (fun e => e.percentage)).sum - 100| ≤ 7/10 :=
  dow_percentages_sum_spec exampleState (by simp [exampleState])

/-- C8: load_data returns as category columns exactly the header columns not
in the metadata set, in original header order, and in every loaded row each
category cell is non-null — a missing category cell becomes 0 — while cells
of metadata columns are untouched.  The list is computed inside load_data
once; the endpoints only read the stored value. -/
theorem load_data_spec (t : RawTable)
    (hw : ∀ r ∈ t.rows, r.length = t.header.length) :
    (load_data t).2 = t.header.filter (fun c => ¬ meta_cols.contains c) ∧
    (load_data t).1.header = t.header ∧
    (load_data t).1.rows =
      t.rows.map (fun r => List.zipWith (fill_cell (load_data t).2) t.header r) ∧
    ∀ r ∈ t.rows, ∀ j c, t.header[j]? = some c →
      ((load_data t).2.contains c →
        (List.zipWith (fill_cell (load_data t).2) t.header r)[j]? =
          some (some ((r.getD j none).getD 0))) ∧
      (¬ (load_data t).2.contains c →
        (List.zipWith (fill_cell (load_data t).2) t.header r)[j]? =
          some (r.getD j none)) := by
  refine ⟨rfl, rfl, rfl, fun r hr j c hc => ⟨fun hcat => ?_, fun hncat => ?_⟩⟩
  · rw [zipWith_fill_getElem _ _ _ _ _ hc (hw r hr)]
    have hmem : c ∈ (load_data t).2 := by simpa using hcat
    simp [fill_cell, hmem]
  · rw [zipWith_fill_getElem _ _ _ _ _ hc (hw r hr)]
    have hmem : c ∉ (load_data t).2 := by simpa using hncat
    simp [fill_cell, hmem]

/-- Witness for C8 on a one-row table: the category list is the non-metadata
header suffix and the missing fresh_fruits cell is filled with 0 while the
missing days_since_prior_order cell stays null. -/
theorem load_data_spec_witness :
    (load_data exampleRaw).2 = ["fresh_fruits"] ∧
    (List.zipWith (fill_cell (load_data exampleRaw).2) exampleRaw.header
      [some 1, some 0, some 10, none, none])[4]? = some (some 0) ∧
    (List.zipWith (fill_cell (load_data exampleRaw).2) exampleRaw.header
      [some 1, some 0, some 10, none, none])[3]? = some none :=
  ⟨by
    have h := (load_data_spec exampleRaw (by decide)).1
    rw [h]
    with_unfolding_all decide,
   ((load_data_spec exampleRaw (by decide)).2.2.2
      [some 1, some 0, some 10, none, none] (by with_unfolding_all decide)
      4 "fresh_fruits" (by decide)).1 (by decide),
   ((load_data_spec exampleRaw (by decide)).2.2.2
      [some 1, some 0, some 10, none, none] (by with_unfolding_all decide)
      3 "days_since_prior_order" (by decide)).2 (by decide)⟩

end BasketKpis
